import Mathlib

/-!
Shallow embedding of the `mkfs` package (`manifest.go`, `mkfs.go`): the
manifest tree, its insertion and query operations, the overlay path
resolver `lookupFile`, and the size-string parser `SetFileSystemSize`.

Representation choices, documented once here:

* Go's dynamically typed tree value (`map[string]interface{}` holding
  `string` file entries, `link` structs and nested maps) becomes the tagged
  sum `Node`; a Go map becomes an association list with first-match
  lookup (`alGet`) and in-place update (`alSet`).  The modelled operations
  never iterate over a map, so map ordering is irrelevant.
* `Manifest.root` is a heterogeneous Go map holding the filesystem tree
  under the key `"children"` next to metadata entries (`"program"`,
  `"arguments"`, `"notrace"`).  The modelled operations address these
  through disjoint fixed keys, so the map is represented as a record with
  one field per key; an absent key is `none`.  Go's `GetChildren` lazily
  materializes `root["children"]` as an empty map, which is observationally
  the empty association list, so `rootChildren` starts as `[]`.
* In-place mutation through map references becomes explicit state passing:
  each operation returns the updated structure.  Mutations that Go performs
  before failing with a *returned* error (creation of intermediate
  directories) are kept in the `err` outcome; `os.Exit(1)` and runtime
  panics abandon the process, so `fatal` and `panicked` carry no state.
* Host filesystem access (`os.Lstat`, `os.Readlink`, `os.Stat`) is a
  read-only oracle `HostFS`.  The unbounded symlink loop of `lookupFile`
  is embedded with explicit fuel; `none` means the fuel ran out, and
  divergence of the Go loop is `∀ fuel, result = none`.
* Warnings printed with `fmt.Printf("warning: ...")` are counted; the
  count is returned next to the updated tree.
-/

/-! ## Characters and path strings (Go `strings` / `path` stdlib) -/

/-- Models Go `strings.Split(s, sep)` at the character level: splits at every
occurrence of `sep`, keeping empty pieces, and yields at least one piece. -/
def splitChars (sep : Char) : List Char → List (List Char)
  | [] => [[]]
  | c :: rest =>
    if c = sep then [] :: splitChars sep rest
    else
      match splitChars sep rest with
      | h :: t => (c :: h) :: t
      | [] => [[c]]

/-- Joins character lists with a single separator character between pieces. -/
def charJoin (sep : Char) : List (List Char) → List Char
  | [] => []
  | [p] => p
  | p :: q :: rest => p ++ sep :: charJoin sep (q :: rest)

/-- String-level join with a separator character. -/
def joinStr (sep : Char) (l : List String) : String :=
  ⟨charJoin sep (l.map String.data)⟩

/-- Go `strings.Split(s, "/")` (the call sites only split on `"/"`). -/
def goSplit (s : String) (sep : Char) : List String :=
  (splitChars sep s.data).map (fun l => ⟨l⟩)

/-- Go `strings.FieldsFunc(s, c == '/')`: the nonempty pieces of `s` split
at slashes. -/
def fields (s : String) : List String :=
  (goSplit s '/').filter (fun p => p ≠ "")

/-- Segment processor of Go `path.Clean`: drops empty and `"."` segments,
resolves `".."` against the accumulated stack (dropping it at the root of a
rooted path, keeping it at the front of a relative path). `acc` holds the
already-accepted segments in reverse. -/
def cleanSegs (rooted : Bool) : List String → List String → List String
  | acc, [] => acc.reverse
  | acc, s :: rest =>
    if s = "" ∨ s = "." then cleanSegs rooted acc rest
    else if s = ".." then
      match acc with
      | [] => if rooted then cleanSegs rooted [] rest else cleanSegs rooted [".."] rest
      | a :: acc' =>
        if a = ".." then cleanSegs rooted (".." :: a :: acc') rest
        else cleanSegs rooted acc' rest
    else cleanSegs rooted (s :: acc) rest

/-- Go `path.Clean`, by its documented semantics: collapse multiple slashes,
drop `"."` elements, resolve `".."`, return `"."` for an empty relative
result and `"/"` for an empty rooted result. -/
def pathClean (p : String) : String :=
  if p = "" then "."
  else
    let rooted := p.data.head? = some '/'
    let segs := cleanSegs rooted [] (goSplit p '/')
    if rooted then
      if segs = [] then "/" else "/" ++ joinStr '/' segs
    else
      if segs = [] then "." else joinStr '/' segs

/-- Go `path.Join` (and `filepath.Join` on a slash-separated system), by its
documented semantics: empty elements are ignored, the rest are joined with
slashes and the result is Cleaned; if all elements are empty the result is
the empty string. -/
def goPathJoin (elems : List String) : String :=
  let kept := elems.filter (fun e => e ≠ "")
  if kept = [] then "" else pathClean (joinStr '/' kept)

/-! ## The manifest tree -/

/-- A value stored in a manifest tree map: Go stores a plain `string` for a
file (the host source path), a `link` struct for a symlink (the literal link
target), and a nested `map[string]interface{}` for a directory. -/
inductive Node where
  | str (host : String)
  | lnk (target : String)
  | dir (entries : List (String × Node))

/-- A Go `map[string]interface{}` of tree nodes, as an association list. -/
abbrev NodeMap := List (String × Node)

/-- Map lookup (first match). -/
def alGet : NodeMap → String → Option Node
  | [], _ => none
  | (k, v) :: t, key => if k = key then some v else alGet t key

/-- Map store: replaces the first binding of `key`, or appends a new one. -/
def alSet : NodeMap → String → Node → NodeMap
  | [], key, v => [(key, v)]
  | (k, w) :: t, key, v =>
    if k = key then (key, v) :: t else (k, w) :: alSet t key v

/-! ## Host filesystem oracle and `lookupFile` -/

/-- Outcome of `os.Lstat` at one concrete path. -/
inductive LstatRes where
  | missing
  | ioError
  | entry (isSymlink : Bool)

/-- Error classes surfaced by the host-filesystem calls: `notExist` is the
class recognized by `os.IsNotExist`. -/
inductive FErr where
  | notExist
  | otherErr
  | readlinkFailed
deriving DecidableEq

/-- Read-only host filesystem oracle: `lstat` inspects a path without
following symlinks, `readlink` reads a symlink's literal target (`none`
models a read error), `stat` follows symlinks and reports `none` on
success or the error class. -/
structure HostFS where
  lstat : String → LstatRes
  readlink : String → Option String
  stat : String → Option FErr

/-- Result of `lookupFile`: the returned concrete path together with the
returned error (`none` = nil error), or a runtime panic (Go indexes
`currentPath[0]`, which panics on an empty readlink target). -/
inductive LookupRes where
  | res (path : String) (err : Option FErr)
  | panicRes
deriving DecidableEq

/-- The overlay loop of `lookupFile` (manifest.go:373-401), fuelled.
`path` is the function's `path` variable (mutated only when a relative
symlink ends the loop), `current` is `currentPath`.  Each iteration joins
the overlay root with the candidate, Lstats the probe without following
symlinks, and either finishes (falling back to `os.Stat` exactly as the
code does after `break`) or chases an absolute symlink target. -/
def lookupLoop (fs : HostFS) (targetRoot : String) (path : String) :
    Nat → String → Option LookupRes
  | 0, _ => none
  | fuel + 1, current =>
    let targetPath := goPathJoin [targetRoot, current]
    match fs.lstat targetPath with
    | .missing => some (.res path (fs.stat path))
    | .ioError => some (.res path (some .otherErr))
    | .entry false => some (.res targetPath none)
    | .entry true =>
      match fs.readlink targetPath with
      | none => some (.res path (some .readlinkFailed))
      | some tgt =>
        match tgt.data with
        | [] => some .panicRes
        | c :: _ =>
          if c = '/' then lookupLoop fs targetRoot path fuel tgt
          else some (.res targetPath (fs.stat targetPath))

/-- `lookupFile(targetRoot, path)` (manifest.go:369-407): with an empty
overlay root it goes straight to `os.Stat(path)`; otherwise it runs the
overlay loop. -/
def lookupFileFuel (fuel : Nat) (fs : HostFS) (targetRoot : String)
    (path : String) : Option LookupRes :=
  if targetRoot = "" then some (.res path (fs.stat path))
  else lookupLoop fs targetRoot path fuel path

/-! ## Operation outcomes -/

/-- The kind of a Go runtime panic hit by the modelled operations. -/
inductive GoPanic where
  | indexOutOfRange
  | typeAssertionFailed
  | panicErr
deriving DecidableEq

/-- An error value returned to the caller. -/
inductive Err where
  | conflict
  | lookupFail (e : FErr)
deriving DecidableEq

/-- Outcome of a modelled operation: normal return, error return (Go
methods returning a non-nil `error` have still mutated the maps reached so
far, so the state is kept), process termination via `os.Exit(1)`, a runtime
panic, or fuel exhaustion of the embedded `lookupFile` loop. -/
inductive OpRes (α : Type) where
  | ok : α → OpRes α
  | err : Err → α → OpRes α
  | fatal : OpRes α
  | panicked : GoPanic → OpRes α
  | noFuel : OpRes α

/-! ## Tree insertion and query (manifest.go) -/

/-- Body of `AddFileTo` (manifest.go:291-324) on a children map and the
slash-split segment list.  The empty segment list hits Go's
`parts[len(parts)-1]` and panics.  At the last segment: a non-string
existing node prints the conflict and calls `os.Exit(1)`; a string node
with a different host path prints one overwrite warning; then the host
source is resolved (`os.Exit(1)` when `os.IsNotExist`, error return
otherwise) and the string node is stored.  Intermediate segments are
created as empty maps when missing and type-asserted to maps (panicking on
a string or link).  Returns the updated map and the number of warnings
printed. -/
def addFileSegs (fuel : Nat) (fs : HostFS) (targetRoot : String)
    (hostpath : String) : NodeMap → List String → OpRes (NodeMap × Nat)
  | _, [] => .panicked .indexOutOfRange
  | node, [last] =>
    match alGet node last with
    | some (.dir _) => .fatal
    | some (.lnk _) => .fatal
    | pt =>
      let w : Nat :=
        match pt with
        | some (.str h) => if h = hostpath then 0 else 1
        | _ => 0
      match lookupFileFuel fuel fs targetRoot hostpath with
      | none => .noFuel
      | some .panicRes => .panicked .indexOutOfRange
      | some (.res _ (some FErr.notExist)) => .fatal
      | some (.res _ (some e)) => .err (.lookupFail e) (node, w)
      | some (.res _ none) => .ok (alSet node last (.str hostpath), w)
  | node, p :: q :: rest =>
    let child : Node :=
      match alGet node p with
      | none => .dir []
      | some c => c
    match child with
    | .dir cm =>
      match addFileSegs fuel fs targetRoot hostpath cm (q :: rest) with
      | .ok (cm', w) => .ok (alSet node p (.dir cm'), w)
      | .err e (cm', w) => .err e (alSet node p (.dir cm'), w)
      | .fatal => .fatal
      | .panicked k => .panicked k
      | .noFuel => .noFuel
    | _ => .panicked .typeAssertionFailed

/-- Body of `AddLink` (manifest.go:245-284), same walk as `addFileSegs`.
At the last segment: a non-string existing node returns the conflict error
(the tree as mutated so far is kept); a string node with a different host
path prints one warning; the host source is resolved as in `AddFileTo`;
then `os.Readlink(hostpath)` is read (`os.Exit(1)` on failure) and its
literal target is stored as a link node. -/
def addLinkSegs (fuel : Nat) (fs : HostFS) (targetRoot : String)
    (hostpath : String) : NodeMap → List String → OpRes (NodeMap × Nat)
  | _, [] => .panicked .indexOutOfRange
  | node, [last] =>
    match alGet node last with
    | some (.dir _) => .err .conflict (node, 0)
    | some (.lnk _) => .err .conflict (node, 0)
    | pt =>
      let w : Nat :=
        match pt with
        | some (.str h) => if h = hostpath then 0 else 1
        | _ => 0
      match lookupFileFuel fuel fs targetRoot hostpath with
      | none => .noFuel
      | some .panicRes => .panicked .indexOutOfRange
      | some (.res _ (some FErr.notExist)) => .fatal
      | some (.res _ (some e)) => .err (.lookupFail e) (node, w)
      | some (.res _ none) =>
        match fs.readlink hostpath with
        | none => .fatal
        | some s => .ok (alSet node last (.lnk s), w)
  | node, p :: q :: rest =>
    let child : Node :=
      match alGet node p with
      | none => .dir []
      | some c => c
    match child with
    | .dir cm =>
      match addLinkSegs fuel fs targetRoot hostpath cm (q :: rest) with
      | .ok (cm', w) => .ok (alSet node p (.dir cm'), w)
      | .err e (cm', w) => .err e (alSet node p (.dir cm'), w)
      | .fatal => .fatal
      | .panicked k => .panicked k
      | .noFuel => .noFuel
    | _ => .panicked .typeAssertionFailed

/-- Body of `FileExists` (manifest.go:228-242): walks existing segments
only (a missing intermediate returns `false`, a non-map intermediate
panics on the type assertion, the empty segment list panics on
`parts[len(parts)-1]`) and returns `true` exactly when the terminal node
exists and is a string (a File; links and directories give `false`). -/
def fileExistsSegs : NodeMap → List String → OpRes Bool
  | _, [] => .panicked .indexOutOfRange
  | node, [last] =>
    match alGet node last with
    | some (.str _) => .ok true
    | _ => .ok false
  | node, p :: q :: rest =>
    match alGet node p with
    | none => .ok false
    | some (.dir cm) => fileExistsSegs cm (q :: rest)
    | some _ => .panicked .typeAssertionFailed

/-- Pure spectator lookup used to state theorems: follows directory
entries along the segments and returns the terminal node if the whole
descent stays inside directories. -/
def lookupSegs : NodeMap → List String → Option Node
  | _, [] => none
  | m, [last] => alGet m last
  | m, p :: q :: rest =>
    match alGet m p with
    | some (.dir cm) => lookupSegs cm (q :: rest)
    | _ => none

/-- `MkDir(parent, dir)` (manifest.go:349-359): materializes
`parent["children"]`, returns the existing subdirectory after a type
assertion (panicking when the name is bound to a string or link), or
creates a fresh directory (whose own `"children"` map is materialized by
`GetChildren(newDir)`).  Go returns the aliased subdirectory map; the
embedding returns the updated parent, which is all the modelled callers
observe. -/
def MkDir (parent : NodeMap) (d : String) : OpRes NodeMap :=
  match alGet parent "children" with
  | some (.str _) => .panicked .typeAssertionFailed
  | some (.lnk _) => .panicked .typeAssertionFailed
  | some (.dir c) =>
    match alGet c d with
    | some (.str _) => .panicked .typeAssertionFailed
    | some (.lnk _) => .panicked .typeAssertionFailed
    | some (.dir _) => .ok (alSet parent "children" (.dir c))
    | none =>
      .ok (alSet parent "children"
        (.dir (alSet c d (.dir [("children", .dir [])]))))
  | none =>
    match alGet ([] : NodeMap) d with
    | some (.str _) => .panicked .typeAssertionFailed
    | some (.lnk _) => .panicked .typeAssertionFailed
    | some (.dir _) => .ok (alSet parent "children" (.dir []))
    | none =>
      .ok (alSet parent "children"
        (.dir (alSet ([] : NodeMap) d (.dir [("children", .dir [])]))))

/-! ## The Manifest -/

/-- The `Manifest` (manifest.go:25-29) together with the metadata entries
of its heterogeneous `root` map that the modelled operations touch:
`root["children"]` (the filesystem tree), `root["program"]`,
`root["arguments"]` and `root["notrace"]` (absent keys are `none`). -/
structure Manifest where
  rootChildren : NodeMap
  program : Option String
  arguments : Option (List String)
  notrace : Option (List String)
  targetRoot : String

/-- `NewManifest(targetRoot)` (manifest.go:32-38): empty maps. -/
def NewManifest (targetRoot : String) : Manifest :=
  ⟨[], none, none, none, targetRoot⟩

/-- `Manifest.AddFile(filepath, hostpath)` = `AddFileTo(m.root, ...)`
(manifest.go:287-289). -/
def Manifest.AddFile (fuel : Nat) (fs : HostFS) (m : Manifest)
    (fp hostpath : String) : OpRes (Manifest × Nat) :=
  match addFileSegs fuel fs m.targetRoot hostpath m.rootChildren (fields fp) with
  | .ok (t, w) => .ok ({ m with rootChildren := t }, w)
  | .err e (t, w) => .err e ({ m with rootChildren := t }, w)
  | .fatal => .fatal
  | .panicked k => .panicked k
  | .noFuel => .noFuel

/-- `Manifest.AddLink(filepath, hostpath)` (manifest.go:245-284). -/
def Manifest.AddLink (fuel : Nat) (fs : HostFS) (m : Manifest)
    (fp hostpath : String) : OpRes (Manifest × Nat) :=
  match addLinkSegs fuel fs m.targetRoot hostpath m.rootChildren (fields fp) with
  | .ok (t, w) => .ok ({ m with rootChildren := t }, w)
  | .err e (t, w) => .err e ({ m with rootChildren := t }, w)
  | .fatal => .fatal
  | .panicked k => .panicked k
  | .noFuel => .noFuel

/-- `Manifest.FileExists(filepath)` (manifest.go:228-242). -/
def Manifest.FileExists (m : Manifest) (fp : String) : OpRes Bool :=
  fileExistsSegs m.rootChildren (fields fp)

/-- `Manifest.AddUserProgram(imgpath)` (manifest.go:48-59): splits on
`"/"`, strips a leading `"."` segment, rebuilds the virtual path with
`path.Join("/", path.Join(parts...))`, inserts it as a File (a returned
insertion error is `panic(err)`), and records it as `root["program"]`. -/
def Manifest.AddUserProgram (fuel : Nat) (fs : HostFS) (m : Manifest)
    (imgpath : String) : OpRes Manifest :=
  let parts0 := goSplit imgpath '/'
  let parts := if parts0.head? = some "." then parts0.tail else parts0
  let program := goPathJoin ["/", goPathJoin parts]
  match m.AddFile fuel fs program imgpath with
  | .ok (m', _) => .ok { m' with program := some program }
  | .err _ _ => .panicked .panicErr
  | .fatal => .fatal
  | .panicked k => .panicked k
  | .noFuel => .noFuel

/-- `Manifest.AddArgument(arg)` (manifest.go:91-97): when absent, the
sequence is initialized with `make([]string, 1)` — a slice already holding
one empty string — and the argument is appended. -/
def Manifest.AddArgument (m : Manifest) (arg : String) : Manifest :=
  let args := match m.arguments with | none => [""] | some l => l
  { m with arguments := some (args ++ [arg]) }

/-- `Manifest.AddNoTrace(name)` (manifest.go:105-111): same shape as
`AddArgument`, on `root["notrace"]`. -/
def Manifest.AddNoTrace (m : Manifest) (name : String) : Manifest :=
  let l := match m.notrace with | none => [""] | some l => l
  { m with notrace := some (l ++ [name]) }

/-! ## `SetFileSystemSize` (mkfs.go:41-71) -/

/-- Error classes of `SetFileSystemSize`: the `"invalid size"` error for a
leading non-digit, the `"invalid units"` error for an unrecognized suffix,
and a wrapped `strconv.ParseInt` failure. -/
inductive SizeErr where
  | invalidSize
  | invalidUnits
  | parseFailed
deriving DecidableEq

/-- Decimal value of a digit string. -/
def digitsToNat (l : List Char) : Nat :=
  l.foldl (fun a c => a * 10 + (c.toNat - 48)) 0

/-- `strconv.ParseInt(s, 10, 64)` restricted to the inputs this caller can
produce (runs of decimal digits): fails on the empty string and on values
outside the int64 range. -/
def parseIntDigits (l : List Char) : Option Int :=
  if l = [] then none
  else if (digitsToNat l : Int) ≤ 2 ^ 63 - 1 then some (digitsToNat l) else none

/-- Two's-complement wraparound of int64 multiplication overflow. -/
def wrap64 (x : Int) : Int :=
  (x + 2 ^ 63) % 2 ^ 64 - 2 ^ 63

/-- `SetFileSystemSize(size)` (mkfs.go:41-71): the digit run before the
first non-digit is the number (Go uses `unicode.IsNumber`; ASCII digits
are modelled, non-ASCII numerals would reach the same `ParseInt` failure
path), the rest lower-cased must be `k`, `m` or `g` (×1024, ×1024²,
×1024³); a leading non-digit is the `"invalid size"` error.  Returns the
byte count stored into `m.size`. -/
def SetFileSystemSize (size : String) : Except SizeErr Int :=
  let l := size.data
  let ds := l.takeWhile Char.isDigit
  let rest := l.dropWhile Char.isDigit
  match rest with
  | [] =>
    match parseIntDigits ds with
    | none => .error .parseFailed
    | some v => .ok (wrap64 (v * 1))
  | _ :: _ =>
    if ds = [] then .error .invalidSize
    else
      let units := rest.map Char.toLower
      let mu : Option Int :=
        if units = ['k'] then some 1024
        else if units = ['m'] then some (1024 * 1024)
        else if units = ['g'] then some (1024 * 1024 * 1024)
        else none
      match mu with
      | none => .error .invalidUnits
      | some mu =>
        match parseIntDigits ds with
        | none => .error .parseFailed
        | some v => .ok (wrap64 (v * mu))

/-! ## Association-list lemmas -/

theorem alGet_alSet_self (m : NodeMap) (k : String) (v : Node) :
    alGet (alSet m k v) k = some v := by
  induction m with
  | nil => simp [alSet, alGet]
  | cons hd t ih =>
    obtain ⟨k', v'⟩ := hd
    by_cases h : k' = k <;> simp [alSet, alGet, h, ih]

theorem alSet_same {m : NodeMap} {k : String} {v : Node}
    (h : alGet m k = some v) : alSet m k v = m := by
  induction m with
  | nil => simp [alGet] at h
  | cons hd t ih =>
    obtain ⟨k', v'⟩ := hd
    by_cases hk : k' = k
    · subst hk
      simp [alGet] at h
      simp [alSet, h]
    · simp [alGet, hk] at h
      simp [alSet, hk, ih h]

/-! ## Walk lemmas: what a successful insertion leaves in the tree -/

theorem addFileSegs_ok_lookup {fuel : Nat} {fs : HostFS} {tr hp : String} :
    ∀ {segs : List String} {m m' : NodeMap} {w : Nat},
      addFileSegs fuel fs tr hp m segs = .ok (m', w) →
      lookupSegs m' segs = some (.str hp) := by
  intro segs
  induction segs with
  | nil => intro m m' w h; simp [addFileSegs] at h
  | cons p rest ih =>
    intro m m' w h
    rcases rest with _ | ⟨q, rest'⟩
    · simp only [addFileSegs] at h
      split at h
      · exact absurd h (by simp)
      · exact absurd h (by simp)
      · split at h
        · exact absurd h (by simp)
        · exact absurd h (by simp)
        · exact absurd h (by simp)
        · exact absurd h (by simp)
        · rename_i heq
          rw [OpRes.ok.injEq] at h
          obtain ⟨h1, _⟩ := (Prod.mk.injEq _ _ _ _).mp h.symm
          simp only [lookupSegs]
          rw [h1]
          exact alGet_alSet_self ..
    · simp only [addFileSegs] at h
      split at h
      · rename_i cm hcm
        split at h
        · rename_i cm' w' hrec
          rw [OpRes.ok.injEq, Prod.mk.injEq] at h
          obtain ⟨h1, _⟩ := h
          subst h1
          simp [lookupSegs, alGet_alSet_self]
          exact ih hrec
        · exact absurd h (by simp)
        · exact absurd h (by simp)
        · exact absurd h (by simp)
        · exact absurd h (by simp)
      · exact absurd h (by simp)

theorem addLinkSegs_ok_lookup {fuel : Nat} {fs : HostFS} {tr hp : String} :
    ∀ {segs : List String} {m m' : NodeMap} {w : Nat},
      addLinkSegs fuel fs tr hp m segs = .ok (m', w) →
      ∃ s, fs.readlink hp = some s ∧ lookupSegs m' segs = some (.lnk s) := by
  intro segs
  induction segs with
  | nil => intro m m' w h; simp [addLinkSegs] at h
  | cons p rest ih =>
    intro m m' w h
    rcases rest with _ | ⟨q, rest'⟩
    · simp only [addLinkSegs] at h
      split at h
      · exact absurd h (by simp)
      · exact absurd h (by simp)
      · split at h
        · exact absurd h (by simp)
        · exact absurd h (by simp)
        · exact absurd h (by simp)
        · exact absurd h (by simp)
        · split at h
          · exact absurd h (by simp)
          · rename_i hrl
            rw [OpRes.ok.injEq] at h
            obtain ⟨h1, _⟩ := (Prod.mk.injEq _ _ _ _).mp h.symm
            refine ⟨_, hrl, ?_⟩
            simp only [lookupSegs]
            rw [h1]
            exact alGet_alSet_self ..
    · simp only [addLinkSegs] at h
      split at h
      · rename_i cm hcm
        split at h
        · rename_i cm' w' hrec
          rw [OpRes.ok.injEq, Prod.mk.injEq] at h
          obtain ⟨h1, _⟩ := h
          subst h1
          obtain ⟨s, hs, hl⟩ := ih hrec
          refine ⟨s, hs, ?_⟩
          simp [lookupSegs, alGet_alSet_self]
          exact hl
        · exact absurd h (by simp)
        · exact absurd h (by simp)
        · exact absurd h (by simp)
        · exact absurd h (by simp)
      · exact absurd h (by simp)

theorem lookupSegs_str_fileExists :
    ∀ {segs : List String} {m : NodeMap} {h : String},
      lookupSegs m segs = some (.str h) → fileExistsSegs m segs = .ok true := by
  intro segs
  induction segs with
  | nil => intro m h hl; simp [lookupSegs] at hl
  | cons p rest ih =>
    intro m h hl
    rcases rest with _ | ⟨q, rest'⟩
    · simp only [lookupSegs] at hl
      simp [fileExistsSegs, hl]
    · simp only [lookupSegs] at hl
      split at hl
      · rename_i cm hcm
        simp [fileExistsSegs, hcm]
        exact ih hl
      · exact absurd hl (by simp)

theorem lookupSegs_lnk_fileExists :
    ∀ {segs : List String} {m : NodeMap} {s : String},
      lookupSegs m segs = some (.lnk s) → fileExistsSegs m segs = .ok false := by
  intro segs
  induction segs with
  | nil => intro m s hl; simp [lookupSegs] at hl
  | cons p rest ih =>
    intro m s hl
    rcases rest with _ | ⟨q, rest'⟩
    · simp only [lookupSegs] at hl
      simp [fileExistsSegs, hl]
    · simp only [lookupSegs] at hl
      split at hl
      · rename_i cm hcm
        simp [fileExistsSegs, hcm]
        exact ih hl
      · exact absurd hl (by simp)

theorem fileExists_true_lookupSegs :
    ∀ {segs : List String} {m : NodeMap},
      fileExistsSegs m segs = .ok true →
      ∃ h, lookupSegs m segs = some (.str h) := by
  intro segs
  induction segs with
  | nil => intro m h; simp [fileExistsSegs] at h
  | cons p rest ih =>
    intro m h
    rcases rest with _ | ⟨q, rest'⟩
    · simp only [fileExistsSegs] at h
      split at h
      · rename_i h' heq
        exact ⟨h', by simp [lookupSegs, heq]⟩
      · exact absurd h (by simp)
    · simp only [fileExistsSegs] at h
      split at h
      · exact absurd h (by simp)
      · rename_i cm hcm
        obtain ⟨h', hl⟩ := ih h
        exact ⟨h', by simp [lookupSegs, hcm]; exact hl⟩
      · exact absurd h (by simp)

/-! ## Claim theorems -/

/-- A host filesystem on which every `os.Stat` succeeds and every
`os.Readlink` yields the literal target `"tgt"`; used to instantiate
witnesses. -/
def fsW : HostFS :=
  ⟨fun _ => .missing, fun _ => some "tgt", fun _ => none⟩

/-- Claim C1 (amended): after a file insertion succeeds at a segment list,
`FileExists` walks to a string node and returns `true`; after a *link*
insertion succeeds there, `FileExists` returns `false`, because the link
struct stored by `AddLink` is not a string; and on any tree `FileExists`
answers `true` exactly when the walk reaches a string (File) node, so it
answers `false` for absent paths and Directory nodes whenever it returns
at all (a File or Link at an intermediate segment panics instead). -/
theorem mkfs_C1_amended (fuel : Nat) (fs : HostFS) (tr hp : String)
    (segs : List String) (t t1 t2 : NodeMap) (w1 w2 : Nat) :
    (addFileSegs fuel fs tr hp t segs = .ok (t1, w1) →
      fileExistsSegs t1 segs = .ok true) ∧
    (addLinkSegs fuel fs tr hp t segs = .ok (t2, w2) →
      fileExistsSegs t2 segs = .ok false) ∧
    (fileExistsSegs t segs = .ok true ↔
      ∃ h, lookupSegs t segs = some (Node.str h)) := by
  refine ⟨?_, ?_, ?_⟩
  · intro h
    exact lookupSegs_str_fileExists (addFileSegs_ok_lookup h)
  · intro h
    obtain ⟨s, _, hl⟩ := addLinkSegs_ok_lookup h
    exact lookupSegs_lnk_fileExists hl
  · constructor
    · exact fileExists_true_lookupSegs
    · rintro ⟨h, hl⟩
      exact lookupSegs_str_fileExists hl

theorem mkfs_C1_amended_w :
    fileExistsSegs [("a", Node.str "/h")] ["a"] = .ok true ∧
    fileExistsSegs [("a", Node.lnk "tgt")] ["a"] = .ok false :=
  ⟨(mkfs_C1_amended 1 fsW "" "/h" ["a"] [] [("a", Node.str "/h")]
      [("a", Node.lnk "tgt")] 0 0).1 rfl,
   (mkfs_C1_amended 1 fsW "" "/h" ["a"] [] [("a", Node.str "/h")]
      [("a", Node.lnk "tgt")] 0 0).2.1 rfl⟩

/-- Claim C1 counterexample: `AddLink("/a", "/h")` succeeds on a fresh
manifest (host lookup fine, link target read as `"tgt"`), yet
`FileExists("/a")` returns `false` immediately afterwards — the claim
demands `true` after a link insertion. -/
theorem mkfs_C1_cx :
    Manifest.AddLink 1 fsW (NewManifest "") "/a" "/h" =
      .ok ({ rootChildren := [("a", Node.lnk "tgt")], program := none,
             arguments := none, notrace := none, targetRoot := "" }, 0) ∧
    Manifest.FileExists
      { rootChildren := [("a", Node.lnk "tgt")], program := none,
        arguments := none, notrace := none, targetRoot := "" } "/a" =
      .ok false :=
  ⟨rfl, rfl⟩

/-- Claim C10: `AddFile`, `AddLink` and `FileExists` on a virtual path with
no segments (the empty string or `"/"`) hit `parts[len(parts)-1]` on the
empty segment slice and panic with an index-out-of-range, instead of
returning `false` or an error. -/
theorem mkfs_C10 (m : Manifest) (fuel : Nat) (fs : HostFS) (hp : String) :
    m.FileExists "" = .panicked .indexOutOfRange ∧
    m.FileExists "/" = .panicked .indexOutOfRange ∧
    Manifest.AddFile fuel fs m "" hp = .panicked .indexOutOfRange ∧
    Manifest.AddFile fuel fs m "/" hp = .panicked .indexOutOfRange ∧
    Manifest.AddLink fuel fs m "" hp = .panicked .indexOutOfRange ∧
    Manifest.AddLink fuel fs m "/" hp = .panicked .indexOutOfRange :=
  ⟨rfl, rfl, rfl, rfl, rfl, rfl⟩

theorem addLinkSegs_conflict {fuel : Nat} {fs : HostFS} {tr hp : String} :
    ∀ {segs : List String} {t : NodeMap} {d : List (String × Node)},
      lookupSegs t segs = some (.dir d) →
      addLinkSegs fuel fs tr hp t segs = .err .conflict (t, 0) := by
  intro segs
  induction segs with
  | nil => intro t d h; simp [lookupSegs] at h
  | cons p rest ih =>
    intro t d h
    rcases rest with _ | ⟨q, rest'⟩
    · simp only [lookupSegs] at h
      simp [addLinkSegs, h]
    · simp only [lookupSegs] at h
      split at h
      · rename_i cm hcm
        simp only [addLinkSegs, hcm]
        rw [ih h]
        simp [alSet_same hcm]
      · exact absurd h (by simp)

theorem addFileSegs_conflict {fuel : Nat} {fs : HostFS} {tr hp : String} :
    ∀ {segs : List String} {t : NodeMap} {d : List (String × Node)},
      lookupSegs t segs = some (.dir d) →
      addFileSegs fuel fs tr hp t segs = .fatal := by
  intro segs
  induction segs with
  | nil => intro t d h; simp [lookupSegs] at h
  | cons p rest ih =>
    intro t d h
    rcases rest with _ | ⟨q, rest'⟩
    · simp only [lookupSegs] at h
      simp [addFileSegs, h]
    · simp only [lookupSegs] at h
      split at h
      · rename_i cm hcm
        simp only [addFileSegs, hcm]
        rw [ih h]
      · exact absurd h (by simp)

/-- Claim C2 (amended): at a virtual path whose terminal node is an
existing Directory, `AddLink` returns the conflict error to the caller and
leaves the tree (in particular the node at that path) unmodified, but
`AddFileTo` prints the conflict and terminates the process via
`os.Exit(1)`; and `MkDir` at a name bound to an existing File panics on a
failed type assertion instead of returning an error. -/
theorem mkfs_C2_amended (fuel : Nat) (fs : HostFS) (tr hp : String)
    (segs : List String) (t : NodeMap) (d : List (String × Node))
    (parent c : NodeMap) (name h : String) :
    (lookupSegs t segs = some (.dir d) →
      addLinkSegs fuel fs tr hp t segs = .err .conflict (t, 0) ∧
      addFileSegs fuel fs tr hp t segs = .fatal) ∧
    (alGet parent "children" = some (.dir c) →
      alGet c name = some (.str h) →
      MkDir parent name = .panicked .typeAssertionFailed) := by
  constructor
  · intro hl
    exact ⟨addLinkSegs_conflict hl, addFileSegs_conflict hl⟩
  · intro h1 h2
    simp [MkDir, h1, h2]

theorem mkfs_C2_amended_w :
    addLinkSegs 1 fsW "" "/h" [("a", Node.dir [])] ["a"] =
      .err .conflict ([("a", Node.dir [])], 0) ∧
    addFileSegs 1 fsW "" "/h" [("a", Node.dir [])] ["a"] = .fatal ∧
    MkDir [("children", Node.dir [("b", Node.str "/h")])] "b" =
      .panicked .typeAssertionFailed :=
  ⟨((mkfs_C2_amended 1 fsW "" "/h" ["a"] [("a", Node.dir [])] []
      [("children", Node.dir [("b", Node.str "/h")])]
      [("b", Node.str "/h")] "b" "/h").1 rfl).1,
   ((mkfs_C2_amended 1 fsW "" "/h" ["a"] [("a", Node.dir [])] []
      [("children", Node.dir [("b", Node.str "/h")])]
      [("b", Node.str "/h")] "b" "/h").1 rfl).2,
   (mkfs_C2_amended 1 fsW "" "/h" ["a"] [("a", Node.dir [])] []
      [("children", Node.dir [("b", Node.str "/h")])]
      [("b", Node.str "/h")] "b" "/h").2 rfl rfl⟩

/-- Claim C2 counterexample: inserting a file where a Directory already
sits makes `AddFileTo` call `os.Exit(1)` (no error is returned to the
caller), and `MkDir` over an existing File panics on the type assertion
`subDir.(map[string]interface{})` — neither yields a returned
`ConflictKind` error as the claim states. -/
theorem mkfs_C2_cx :
    Manifest.AddFile 1 fsW
      { rootChildren := [("a", Node.dir [])], program := none,
        arguments := none, notrace := none, targetRoot := "" } "/a" "/h" =
      .fatal ∧
    MkDir [("children", Node.dir [("a", Node.str "/h")])] "a" =
      .panicked .typeAssertionFailed :=
  ⟨rfl, rfl⟩

theorem addFileSegs_overwrite {fuel : Nat} {fs : HostFS} {tr h1 h2 lp : String} :
    ∀ {segs : List String} {t : NodeMap},
      lookupSegs t segs = some (.str h1) → h1 ≠ h2 →
      lookupFileFuel fuel fs tr h2 = some (.res lp none) →
      ∃ t', addFileSegs fuel fs tr h2 t segs = .ok (t', 1) ∧
        lookupSegs t' segs = some (.str h2) := by
  intro segs
  induction segs with
  | nil => intro t hl hne hlk; simp [lookupSegs] at hl
  | cons p rest ih =>
    intro t hl hne hlk
    rcases rest with _ | ⟨q, rest'⟩
    · simp only [lookupSegs] at hl
      refine ⟨alSet t p (.str h2), ?_, ?_⟩
      · simp only [addFileSegs, hl, hlk]
        simp [hne]
      · simp only [lookupSegs]
        exact alGet_alSet_self ..
    · simp only [lookupSegs] at hl
      split at hl
      · rename_i cm hcm
        obtain ⟨cm', hrec, hlook⟩ := ih hl hne hlk
        refine ⟨alSet t p (.dir cm'), ?_, ?_⟩
        · simp only [addFileSegs, hcm, hrec]
        · simp only [lookupSegs, alGet_alSet_self]
          exact hlook
      · exact absurd hl (by simp)

theorem addFileSegs_idem {fuel : Nat} {fs : HostFS} {tr hp : String} :
    ∀ {segs : List String} {t t1 : NodeMap} {w : Nat},
      addFileSegs fuel fs tr hp t segs = .ok (t1, w) →
      addFileSegs fuel fs tr hp t1 segs = .ok (t1, 0) := by
  intro segs
  induction segs with
  | nil => intro t t1 w h; simp [addFileSegs] at h
  | cons p rest ih =>
    intro t t1 w h
    rcases rest with _ | ⟨q, rest'⟩
    · simp only [addFileSegs] at h
      split at h
      · exact absurd h (by simp)
      · exact absurd h (by simp)
      · split at h
        · exact absurd h (by simp)
        · exact absurd h (by simp)
        · exact absurd h (by simp)
        · exact absurd h (by simp)
        · rename_i heq
          rw [OpRes.ok.injEq] at h
          obtain ⟨ht, _⟩ := (Prod.mk.injEq _ _ _ _).mp h.symm
          have hg : alGet t1 p = some (.str hp) := by
            rw [ht]; exact alGet_alSet_self ..
          simp only [addFileSegs, hg, heq]
          simp [alSet_same hg]
    · simp only [addFileSegs] at h
      split at h
      · rename_i cm hcm
        split at h
        · rename_i cm' w' hrec
          rw [OpRes.ok.injEq, Prod.mk.injEq] at h
          obtain ⟨ht, _⟩ := h
          have hg : alGet t1 p = some (.dir cm') := by
            rw [← ht]; exact alGet_alSet_self ..
          simp only [addFileSegs, hg, ih hrec]
          simp [alSet_same hg, ht]
        · exact absurd h (by simp)
        · exact absurd h (by simp)
        · exact absurd h (by simp)
        · exact absurd h (by simp)
      · exact absurd h (by simp)

/-- Claim C5: when the virtual path currently holds a File with host source
`h1` and a second file insertion arrives with a different, resolvable host
source `h2`, the insertion succeeds with no error, the stored host source
becomes `h2` (last write wins), and exactly one overwrite warning is
printed. -/
theorem mkfs_C5 (fuel : Nat) (fs : HostFS) (tr h1 h2 lp : String)
    (segs : List String) (t : NodeMap)
    (hl : lookupSegs t segs = some (.str h1)) (hne : h1 ≠ h2)
    (hlk : lookupFileFuel fuel fs tr h2 = some (.res lp none)) :
    ∃ t', addFileSegs fuel fs tr h2 t segs = .ok (t', 1) ∧
      lookupSegs t' segs = some (.str h2) :=
  addFileSegs_overwrite hl hne hlk

theorem mkfs_C5_w :
    addFileSegs 1 fsW "" "/h2" [("a", Node.str "/h1")] ["a"] =
      .ok ([("a", Node.str "/h2")], 1) ∧
    lookupSegs [("a", Node.str "/h2")] ["a"] = some (Node.str "/h2") := by
  obtain ⟨t', h, hl⟩ :=
    mkfs_C5 1 fsW "" "/h1" "/h2" "/h2" ["a"] [("a", Node.str "/h1")]
      rfl (by decide) rfl
  have h' : (OpRes.ok (t', 1) : OpRes (NodeMap × Nat)) =
      .ok ([("a", Node.str "/h2")], 1) := h.symm.trans rfl
  rw [OpRes.ok.injEq, Prod.mk.injEq] at h'
  obtain ⟨ht, _⟩ := h'
  subst ht
  exact ⟨h, hl⟩

/-- Claim C6: inserting the same (path, host source) pair twice is
idempotent — if the first insertion returned `ok` with tree `t1`, the
second insertion returns `ok` with exactly the same tree `t1` and prints
no warning. -/
theorem mkfs_C6 (fuel : Nat) (fs : HostFS) (tr hp : String)
    (segs : List String) (t t1 : NodeMap) (w : Nat)
    (h : addFileSegs fuel fs tr hp t segs = .ok (t1, w)) :
    addFileSegs fuel fs tr hp t1 segs = .ok (t1, 0) :=
  addFileSegs_idem h

theorem mkfs_C6_w :
    addFileSegs 1 fsW "" "/h" [("a", Node.str "/h")] ["a"] =
      .ok ([("a", Node.str "/h")], 0) :=
  mkfs_C6 1 fsW "" "/h" ["a"] [] [("a", Node.str "/h")] 0 rfl

/-- Claim C3: with a non-empty overlay root `T`, a probe `T/P` that exists
and is not a symlink resolves to `T/P` with nil error; a relative symlink
at `T/P` ends the overlay loop and the returned path is `T/P` itself (with
the `os.Stat(T/P)` outcome as error), not the symlink's target; an
absolute symlink target `q` makes the loop continue by probing `T/q`; and
with an empty overlay root the requested path is checked directly with
`os.Stat`, so it fails with the not-exist error exactly when the host
lacks it. -/
theorem mkfs_C3 (fs : HostFS) (T P q : String) (fuel : Nat) :
    (T ≠ "" → fs.lstat (goPathJoin [T, P]) = .entry false →
      lookupFileFuel (fuel + 1) fs T P =
        some (.res (goPathJoin [T, P]) none)) ∧
    (T ≠ "" → fs.lstat (goPathJoin [T, P]) = .entry true →
      fs.readlink (goPathJoin [T, P]) = some q → q ≠ "" →
      q.data.head? ≠ some '/' →
      lookupFileFuel (fuel + 1) fs T P =
        some (.res (goPathJoin [T, P]) (fs.stat (goPathJoin [T, P])))) ∧
    (T ≠ "" → fs.lstat (goPathJoin [T, P]) = .entry true →
      fs.readlink (goPathJoin [T, P]) = some q →
      q.data.head? = some '/' →
      lookupFileFuel (fuel + 1) fs T P = lookupLoop fs T P fuel q) ∧
    (lookupFileFuel fuel fs "" P = some (.res P (fs.stat P))) := by
  refine ⟨?_, ?_, ?_, ?_⟩
  · intro hT hls
    simp [lookupFileFuel, hT, lookupLoop, hls]
  · intro hT hls hrl hq hh
    rcases hd : q.data with _ | ⟨c, cs⟩
    · exact absurd (by cases q; simp at hd; simp [hd]) hq
    · have hc : ¬ c = '/' := by
        intro hc
        exact hh (by rw [hd, hc]; rfl)
      simp [lookupFileFuel, hT, lookupLoop, hls, hrl, hd, hc]
  · intro hT hls hrl hh
    rcases hd : q.data with _ | ⟨c, cs⟩
    · rw [hd] at hh; simp at hh
    · rw [hd] at hh
      simp only [List.head?] at hh
      have hc : c = '/' := by injection hh
      simp [lookupFileFuel, hT, lookupLoop, hls, hrl, hd, hc]
  · simp [lookupFileFuel]

/-- Overlay filesystem with a self-referential absolute symlink chain:
`/r/x` is a symlink with the absolute target `/x`, so probing `/x` under
the overlay root `/r` joins back to `/r/x` on every iteration. -/
def cycFS : HostFS :=
  ⟨fun p => if p = "/r/x" then .entry true else .missing,
   fun p => if p = "/r/x" then some "/x" else none,
   fun _ => none⟩

/-- Claim C4: the overlay loop of `lookupFile` has no cycle guard — on the
filesystem `cycFS`, whose `/r/x` is an absolute symlink to `/x`, resolving
`/x` under target root `/r` consumes any amount of fuel without producing
a result, i.e. the Go loop never terminates. -/
theorem mkfs_C4 (fuel : Nat) : lookupFileFuel fuel cycFS "/r" "/x" = none := by
  have key : ∀ n, lookupLoop cycFS "/r" "/x" n "/x" = none := by
    intro n
    induction n with
    | zero => rfl
    | succ k ih =>
      have step : lookupLoop cycFS "/r" "/x" (k + 1) "/x" =
          lookupLoop cycFS "/r" "/x" k "/x" := rfl
      rw [step, ih]
  simp only [lookupFileFuel]
  rw [if_neg (by decide)]
  exact key fuel

/-- Host filesystem exercising all four resolver cases: under `/t`, `a` is
a plain entry, `rel` is a relative symlink to `r`, `abs` is an absolute
symlink to `/a`; on the bare host, `/m` is missing. -/
def fsW3 : HostFS :=
  ⟨fun p =>
      if p = "/t/a" then .entry false
      else if p = "/t/rel" then .entry true
      else if p = "/t/abs" then .entry true
      else .missing,
   fun p =>
      if p = "/t/rel" then some "r"
      else if p = "/t/abs" then some "/a"
      else none,
   fun p => if p = "/m" then some .notExist else none⟩

theorem mkfs_C3_w :
    lookupFileFuel 1 fsW3 "/t" "/a" = some (.res "/t/a" none) ∧
    lookupFileFuel 1 fsW3 "/t" "/rel" = some (.res "/t/rel" none) ∧
    lookupFileFuel 2 fsW3 "/t" "/abs" = lookupLoop fsW3 "/t" "/abs" 1 "/a" ∧
    lookupFileFuel 3 fsW3 "" "/m" = some (.res "/m" (some .notExist)) :=
  ⟨(mkfs_C3 fsW3 "/t" "/a" "r" 0).1 (by decide) rfl,
   (mkfs_C3 fsW3 "/t" "/rel" "r" 0).2.1 (by decide) rfl rfl (by decide)
     (by decide),
   (mkfs_C3 fsW3 "/t" "/abs" "/a" 1).2.2.1 (by decide) rfl rfl rfl,
   (mkfs_C3 fsW3 "" "/m" "r" 3).2.2.2⟩

/-- Folding a whole call sequence of `AddArgument`. -/
def addArgs (m : Manifest) (vs : List String) : Manifest :=
  vs.foldl Manifest.AddArgument m

/-- Folding a whole call sequence of `AddNoTrace`. -/
def addNoTraces (m : Manifest) (vs : List String) : Manifest :=
  vs.foldl Manifest.AddNoTrace m

theorem addArgs_arguments :
    ∀ {vs : List String} {m : Manifest} {l : List String},
      m.arguments = some l → (addArgs m vs).arguments = some (l ++ vs) := by
  intro vs
  induction vs with
  | nil => intro m l h; simpa [addArgs]
  | cons v rest ih =>
    intro m l h
    have h1 : (m.AddArgument v).arguments = some (l ++ [v]) := by
      simp [Manifest.AddArgument, h]
    have := ih h1
    simpa [addArgs] using this

theorem addNoTraces_notrace :
    ∀ {vs : List String} {m : Manifest} {l : List String},
      m.notrace = some l → (addNoTraces m vs).notrace = some (l ++ vs) := by
  intro vs
  induction vs with
  | nil => intro m l h; simpa [addNoTraces]
  | cons v rest ih =>
    intro m l h
    have h1 : (m.AddNoTrace v).notrace = some (l ++ [v]) := by
      simp [Manifest.AddNoTrace, h]
    have := ih h1
    simpa [addNoTraces] using this

/-- Claim C8 (amended): a sequence of `AddArgument(v1) ... AddArgument(vn)`
calls on a fresh Manifest stores exactly one leading empty string followed
by `v1 ... vn` in call order (the first call seeds the slice with
`make([]string, 1)`, which already holds one empty string); the same holds
for `AddNoTrace` and the notrace sequence. -/
theorem mkfs_C8_amended (tr : String) (vs : List String) (hne : vs ≠ []) :
    (addArgs (NewManifest tr) vs).arguments = some ("" :: vs) ∧
    (addNoTraces (NewManifest tr) vs).notrace = some ("" :: vs) := by
  rcases vs with _ | ⟨v, rest⟩
  · exact absurd rfl hne
  · constructor
    · have h1 : ((NewManifest tr).AddArgument v).arguments = some ["", v] := rfl
      have := @addArgs_arguments rest _ _ h1
      simpa [addArgs] using this
    · have h1 : ((NewManifest tr).AddNoTrace v).notrace = some ["", v] := rfl
      have := @addNoTraces_notrace rest _ _ h1
      simpa [addNoTraces] using this

theorem mkfs_C8_amended_w :
    (addArgs (NewManifest "") ["x", "y"]).arguments = some ["", "x", "y"] ∧
    (addNoTraces (NewManifest "") ["x", "y"]).notrace =
      some ["", "x", "y"] :=
  mkfs_C8_amended "" ["x", "y"] (by decide)

/-- Claim C8 counterexample: one `AddArgument("first")` call on a fresh
Manifest stores `["", "first"]`, not `["first"]` — the slice is seeded
with `make([]string, 1)`, so the claimed "exactly [v1 ... vn]" fails. -/
theorem mkfs_C8_cx :
    ((NewManifest "").AddArgument "first").arguments = some ["", "first"] ∧
    some ["", "first"] ≠ some ["first"] :=
  ⟨rfl, by decide⟩

theorem takeWhile_all_of_mem {p : Char → Bool} :
    ∀ {l : List Char}, (∀ x ∈ l, p x) →
      l.takeWhile p = l ∧ l.dropWhile p = [] := by
  intro l
  induction l with
  | nil => intro _; simp
  | cons c cs ih =>
    intro h
    have hc : p c := h c (by simp)
    have := ih (fun x hx => h x (by simp [hx]))
    simp [List.takeWhile, List.dropWhile, hc, this.1, this.2]

theorem takeWhile_digits_append {p : Char → Bool} :
    ∀ {ds : List Char} {c : Char} {us : List Char},
      (∀ x ∈ ds, p x) → ¬ p c →
      (ds ++ c :: us).takeWhile p = ds ∧
      (ds ++ c :: us).dropWhile p = c :: us := by
  intro ds
  induction ds with
  | nil =>
    intro c us _ hc
    simp [List.takeWhile, List.dropWhile, hc]
  | cons d ds' ih =>
    intro c us h hc
    have hd : p d := h d (by simp)
    have := @ih c us (fun x hx => h x (by simp [hx])) hc
    simp [List.takeWhile, List.dropWhile, hd, this.1, this.2]

theorem wrap64_id {x : Int} (h0 : 0 ≤ x) (h1 : x ≤ 2 ^ 63 - 1) :
    wrap64 x = x := by
  unfold wrap64
  omega

theorem strData_mk (l : List Char) : (⟨l⟩ : String).data = l := rfl

/-- Claim C9: `SetFileSystemSize` parses a run of decimal digits with an
optional one-letter case-insensitive suffix `k`/`m`/`g` standing for
×1024, ×1024², ×1024³: `"10M"` stores 10×1024×1024 bytes with no error,
`"abc"` (a non-numeric first character) fails with the invalid-size
error, a pure digit string is taken as a byte count, and a digit run
followed by any suffix yields the multiplied size for `k`/`m`/`g` and the
invalid-units error for anything else.  (Bounds keep the values inside
the int64 range of `strconv.ParseInt`.) -/
theorem mkfs_C9 (ds us : List Char) (c : Char)
    (hds : ds ≠ []) (hdig : ∀ x ∈ ds, x.isDigit)
    (hv : (digitsToNat ds : Int) ≤ 2 ^ 63 - 1)
    (hprod : (digitsToNat ds : Int) * (1024 * 1024 * 1024) ≤ 2 ^ 63 - 1)
    (hc : ¬ c.isDigit) :
    SetFileSystemSize "10M" = .ok 10485760 ∧
    SetFileSystemSize "abc" = .error .invalidSize ∧
    SetFileSystemSize ⟨ds⟩ = .ok (digitsToNat ds) ∧
    SetFileSystemSize ⟨ds ++ c :: us⟩ =
      (if (c :: us).map Char.toLower = ['k'] then
        .ok ((digitsToNat ds : Int) * 1024)
      else if (c :: us).map Char.toLower = ['m'] then
        .ok ((digitsToNat ds : Int) * (1024 * 1024))
      else if (c :: us).map Char.toLower = ['g'] then
        .ok ((digitsToNat ds : Int) * (1024 * 1024 * 1024))
      else .error .invalidUnits) := by
  have h0 : (0 : Int) ≤ (digitsToNat ds : Int) := Int.ofNat_nonneg _
  have hb : ∀ mu : Int, 1 ≤ mu → mu ≤ 1024 * 1024 * 1024 →
      wrap64 ((digitsToNat ds : Int) * mu) = (digitsToNat ds : Int) * mu := by
    intro mu hmu1 hmu2
    have hnn : 0 ≤ (digitsToNat ds : Int) * mu :=
      mul_nonneg h0 (le_trans (by norm_num) hmu1)
    have hle : (digitsToNat ds : Int) * mu ≤
        (digitsToNat ds : Int) * (1024 * 1024 * 1024) :=
      mul_le_mul_of_nonneg_left hmu2 h0
    exact wrap64_id hnn (le_trans hle hprod)
  refine ⟨rfl, rfl, ?_, ?_⟩
  · obtain ⟨ht, hdp⟩ := takeWhile_all_of_mem hdig
    simp only [SetFileSystemSize, strData_mk, ht, hdp]
    simp only [parseIntDigits, if_neg hds, if_pos hv, mul_one]
    rw [wrap64_id h0 hv]
  · obtain ⟨ht, hdp⟩ := @takeWhile_digits_append Char.isDigit ds c us hdig hc
    simp only [SetFileSystemSize, strData_mk, ht, hdp]
    rw [if_neg hds]
    split_ifs with h1 h2 h3
    · simp only [parseIntDigits, if_neg hds, if_pos hv]
      rw [hb 1024 (by norm_num) (by norm_num)]
    · simp only [parseIntDigits, if_neg hds, if_pos hv]
      rw [hb (1024 * 1024) (by norm_num) (by norm_num)]
    · simp only [parseIntDigits, if_neg hds, if_pos hv]
      rw [hb (1024 * 1024 * 1024) (by norm_num) (by norm_num)]
    · rfl

theorem mkfs_C9_w :
    SetFileSystemSize "123" = .ok 123 ∧
    SetFileSystemSize "10k" = .ok 10240 :=
  ⟨(mkfs_C9 ['1', '2', '3'] [] 'x' (by decide) (by decide) (by decide)
      (by decide) (by decide)).2.2.1,
   (mkfs_C9 ['1', '0'] [] 'k' (by decide) (by decide) (by decide)
      (by decide) (by decide)).2.2.2⟩

theorem splitChars_ne_nil (sep : Char) : ∀ l : List Char, splitChars sep l ≠ [] := by
  intro l
  induction l with
  | nil => simp [splitChars]
  | cons c rest ih =>
    by_cases hc : c = sep
    · simp [splitChars, hc]
    · simp only [splitChars, if_neg hc]
      rcases hs : splitChars sep rest with _ | ⟨h, t⟩
      · simp
      · simp

theorem splitChars_no_sep {sep : Char} :
    ∀ {l piece : List Char}, piece ∈ splitChars sep l → sep ∉ piece := by
  intro l
  induction l with
  | nil =>
    intro piece hm
    simp [splitChars] at hm
    simp [hm]
  | cons c rest ih =>
    intro piece hm
    by_cases hc : c = sep
    · simp only [splitChars, if_pos hc, List.mem_cons] at hm
      rcases hm with hm | hm
      · simp [hm]
      · exact ih hm
    · simp only [splitChars, if_neg hc] at hm
      rcases hs : splitChars sep rest with _ | ⟨h, t⟩
      · exact absurd hs (splitChars_ne_nil sep rest)
      · rw [hs] at hm
        rcases List.mem_cons.mp hm with hm | hm
        · subst hm
          intro hmem
          rcases List.mem_cons.mp hmem with he | he
          · exact hc he.symm
          · exact ih (hs ▸ List.mem_cons_self h t) he
        · exact ih (hs ▸ List.mem_cons_of_mem h hm)

theorem splitChars_of_no_sep {sep : Char} :
    ∀ {p : List Char}, sep ∉ p → splitChars sep p = [p] := by
  intro p
  induction p with
  | nil => intro _; rfl
  | cons c cs ih =>
    intro h
    have hc : ¬ c = sep := fun he => h (by simp [he])
    have hcs : sep ∉ cs := fun hm => h (by simp [hm])
    simp only [splitChars, if_neg hc, ih hcs]

theorem splitChars_append_sep {sep : Char} :
    ∀ {p l : List Char}, sep ∉ p →
      splitChars sep (p ++ sep :: l) = p :: splitChars sep l := by
  intro p
  induction p with
  | nil =>
    intro l _
    simp [splitChars]
  | cons c cs ih =>
    intro l h
    have hc : ¬ c = sep := fun he => h (by simp [he])
    have hcs : sep ∉ cs := fun hm => h (by simp [hm])
    have hr := @ih l hcs
    simp only [List.cons_append, splitChars, if_neg hc]
    rw [show cs.append (sep :: l) = cs ++ sep :: l from rfl, hr]

theorem splitChars_charJoin {sep : Char} :
    ∀ {ps : List (List Char)}, ps ≠ [] → (∀ p ∈ ps, sep ∉ p) →
      splitChars sep (charJoin sep ps) = ps := by
  intro ps
  induction ps with
  | nil => intro h _; exact absurd rfl h
  | cons p rest ih =>
    intro _ hall
    rcases rest with _ | ⟨q, rest'⟩
    · simp only [charJoin]
      exact splitChars_of_no_sep (hall p (by simp))
    · simp only [charJoin]
      rw [splitChars_append_sep (hall p (by simp))]
      rw [ih (by simp) (fun x hx => hall x (by simp [hx]))]

theorem cleanSegs_normal {rooted : Bool} :
    ∀ {segs : List String} (acc : List String),
      (∀ s ∈ segs, ¬ s = "" ∧ ¬ s = "." ∧ ¬ s = "..") →
      cleanSegs rooted acc segs = acc.reverse ++ segs := by
  intro segs
  induction segs with
  | nil => intro acc _; simp [cleanSegs]
  | cons s rest ih =>
    intro acc h
    obtain ⟨h1, h2, h3⟩ := h s (by simp)
    have hrest := fun x hx => h x (List.mem_cons_of_mem s hx)
    simp only [cleanSegs]
    rw [if_neg (by exact fun ho => ho.elim h1 h2), if_neg h3, ih (s :: acc) hrest]
    simp

theorem cleanSegs_empty_seg {rooted : Bool} (acc : List String)
    (rest : List String) :
    cleanSegs rooted acc ("" :: rest) = cleanSegs rooted acc rest := by
  simp [cleanSegs]

theorem strData_append (a b : String) : (a ++ b).data = a.data ++ b.data := by
  cases a; cases b; rfl

theorem strEmpty_iff (s : String) : s = "" ↔ s.data = [] := by
  cases s with
  | mk d =>
    constructor
    · intro h
      rw [h]
    · intro h
      have hd : d = [] := h
      subst hd
      rfl

theorem mapMk_data (l : List String) :
    (l.map String.data).map (fun d => (⟨d⟩ : String)) = l := by
  rw [List.map_map]
  have : (fun d => (⟨d⟩ : String)) ∘ String.data = id := funext fun s => rfl
  rw [this, List.map_id]

theorem goSplit_no_sep {x : String} {sep : Char} :
    ∀ s ∈ goSplit x sep, sep ∉ s.data := by
  intro s hs
  simp only [goSplit, List.mem_map] at hs
  obtain ⟨piece, hmem, heq⟩ := hs
  rw [← heq]
  exact splitChars_no_sep hmem

theorem goSplit_joinStr {segs : List String} (hne : segs ≠ [])
    (hnosep : ∀ s ∈ segs, '/' ∉ s.data) :
    goSplit (joinStr '/' segs) '/' = segs := by
  simp only [goSplit, joinStr, strData_mk]
  rw [splitChars_charJoin (by simpa using hne)
    (by intro p hp
        simp only [List.mem_map] at hp
        obtain ⟨s, hs, he⟩ := hp
        rw [← he]
        exact hnosep s hs)]
  exact mapMk_data segs

theorem charJoin_cons_head (sep : Char) (d0 : List Char)
    (drest : List (List Char)) (h : d0 ≠ []) :
    (charJoin sep (d0 :: drest)).head? = d0.head? := by
  rcases drest with _ | ⟨d1, drest'⟩
  · rfl
  · rcases d0 with _ | ⟨c, cs⟩
    · exact absurd rfl h
    · rfl

theorem joinStr_head {s0 : String} {rest : List String} (h : s0 ≠ "") :
    (joinStr '/' (s0 :: rest)).data.head? = s0.data.head? := by
  simp only [joinStr, strData_mk, List.map]
  exact charJoin_cons_head '/' s0.data (rest.map String.data)
    (fun hd => h ((strEmpty_iff s0).mpr hd))

theorem joinStr_ne_empty {s0 : String} {rest : List String} (h : s0 ≠ "") :
    joinStr '/' (s0 :: rest) ≠ "" := by
  intro he
  have hd := (strEmpty_iff _).mp he
  have := @joinStr_head s0 rest h
  rw [hd] at this
  simp only [List.head?] at this
  rcases hs : s0.data with _ | ⟨c, cs⟩
  · exact h ((strEmpty_iff s0).mpr hs)
  · rw [hs] at this
    simp at this

theorem pathClean_joinStr_normal {segs : List String} (hne : segs ≠ [])
    (hnorm : ∀ s ∈ segs, ¬ s = "" ∧ ¬ s = "." ∧ ¬ s = "..")
    (hnosep : ∀ s ∈ segs, '/' ∉ s.data) :
    pathClean (joinStr '/' segs) = joinStr '/' segs := by
  rcases segs with _ | ⟨s0, rest⟩
  · exact absurd rfl hne
  · have h0 : ¬ s0 = "" := (hnorm s0 (by simp)).1
    have hpne : joinStr '/' (s0 :: rest) ≠ "" := joinStr_ne_empty h0
    have hhead : ¬ (joinStr '/' (s0 :: rest)).data.head? = some '/' := by
      rw [joinStr_head h0]
      rcases hs : s0.data with _ | ⟨c, cs⟩
      · exact absurd ((strEmpty_iff s0).mpr hs) h0
      · simp only [List.head?]
        intro hce
        have hc : c = '/' := by injection hce
        exact hnosep s0 (by simp) (by rw [hs, hc]; simp)
    simp only [pathClean, if_neg hpne]
    rw [goSplit_joinStr (by simp) hnosep]
    rw [cleanSegs_normal [] hnorm]
    simp only [List.reverse_nil, List.nil_append]
    rw [if_neg hhead, if_neg (by simp : ¬ (s0 :: rest) = [])]

theorem goPathJoin_rooted {segs : List String} (hne : segs ≠ [])
    (hnorm : ∀ s ∈ segs, ¬ s = "" ∧ ¬ s = "." ∧ ¬ s = "..")
    (hnosep : ∀ s ∈ segs, '/' ∉ s.data) :
    goPathJoin ["/", joinStr '/' segs] = "/" ++ joinStr '/' segs := by
  rcases segs with _ | ⟨s0, rest⟩
  · exact absurd rfl hne
  · have h0 : ¬ s0 = "" := (hnorm s0 (by simp)).1
    have hpne : joinStr '/' (s0 :: rest) ≠ "" := joinStr_ne_empty h0
    have hk : (["/", joinStr '/' (s0 :: rest)].filter (fun e => e ≠ "")) =
        ["/", joinStr '/' (s0 :: rest)] := by
      simp [List.filter, hpne]
    simp only [goPathJoin, hk]
    rw [if_neg (by simp : ¬ (["/", joinStr '/' (s0 :: rest)] : List String) = [])]
    have hjoin : joinStr '/' ["/", joinStr '/' (s0 :: rest)] =
        (⟨'/' :: '/' :: (joinStr '/' (s0 :: rest)).data⟩ : String) := rfl
    rw [hjoin]
    have hdne : ¬ (⟨'/' :: '/' :: (joinStr '/' (s0 :: rest)).data⟩ : String) = "" := by
      intro he
      have := (strEmpty_iff _).mp he
      simp [strData_mk] at this
    simp only [pathClean, if_neg hdne]
    have hsplit : goSplit
        (⟨'/' :: '/' :: (joinStr '/' (s0 :: rest)).data⟩ : String) '/' =
        "" :: "" :: (s0 :: rest) := by
      simp only [goSplit, strData_mk]
      rw [show splitChars '/' ('/' :: '/' :: (joinStr '/' (s0 :: rest)).data) =
          [] :: [] :: splitChars '/' (joinStr '/' (s0 :: rest)).data from by
        simp [splitChars]]
      have : splitChars '/' (joinStr '/' (s0 :: rest)).data =
          (s0 :: rest).map String.data := by
        simp only [joinStr, strData_mk]
        exact splitChars_charJoin (by simp)
          (by intro p hp
              simp only [List.mem_map] at hp
              obtain ⟨s, hs, he⟩ := hp
              rw [← he]
              exact hnosep s hs)
      rw [this, List.map_cons, List.map_cons, mapMk_data (s0 :: rest)]
    rw [hsplit]
    rw [cleanSegs_empty_seg, cleanSegs_empty_seg, cleanSegs_normal [] hnorm]
    simp only [List.reverse_nil, List.nil_append]
    rw [if_pos (by simp [strData_mk] : (⟨'/' :: '/' ::
      (joinStr '/' (s0 :: rest)).data⟩ : String).data.head? = some '/')]
    rw [if_neg (by simp : ¬ (s0 :: rest) = [])]

theorem fields_rooted {segs : List String} (hne : segs ≠ [])
    (hnorm : ∀ s ∈ segs, ¬ s = "" ∧ ¬ s = "." ∧ ¬ s = "..")
    (hnosep : ∀ s ∈ segs, '/' ∉ s.data) :
    fields ("/" ++ joinStr '/' segs) = segs := by
  rcases segs with _ | ⟨s0, rest⟩
  · exact absurd rfl hne
  · simp only [fields, goSplit]
    rw [strData_append]
    rw [show (("/" : String).data ++ (joinStr '/' (s0 :: rest)).data) =
        '/' :: (joinStr '/' (s0 :: rest)).data from rfl]
    rw [show splitChars '/' ('/' :: (joinStr '/' (s0 :: rest)).data) =
        [] :: splitChars '/' (joinStr '/' (s0 :: rest)).data from by
      simp [splitChars]]
    have hsp : splitChars '/' (joinStr '/' (s0 :: rest)).data =
        (s0 :: rest).map String.data := by
      simp only [joinStr, strData_mk]
      exact splitChars_charJoin (by simp)
        (by intro p hp
            simp only [List.mem_map] at hp
            obtain ⟨s, hs, he⟩ := hp
            rw [← he]
            exact hnosep s hs)
    rw [hsp, List.map_cons, mapMk_data (s0 :: rest)]
    rw [show List.filter (fun p => decide (p ≠ ""))
        ((⟨[]⟩ : String) :: s0 :: rest) =
        List.filter (fun p => decide (p ≠ "")) (s0 :: rest) from rfl]
    exact List.filter_eq_self.mpr (fun s hs => by simp [(hnorm s hs).1])

/-- Claim C7 (amended): `AddUserProgram` splits the host path on `/`,
strips one leading `"."` segment, and rebuilds the virtual path through
`path.Join` (which also cleans `".."`, `"."` and empty segments).  For a
host path whose remaining nonempty segments are plain names (no `"."` or
`".."`), the result is exactly the slash-joined segments prefixed with
`"/"`: that path is recorded in the `program` field and a File node
carrying the original host path is inserted at exactly that virtual
path. -/
theorem mkfs_C7_amended (fuel : Nat) (fs : HostFS) (m m' : Manifest)
    (imgpath : String) (segs : List String)
    (hsegs : segs =
      ((if (goSplit imgpath '/').head? = some "." then
          (goSplit imgpath '/').tail
        else goSplit imgpath '/').filter (fun s => s ≠ "")))
    (hne : segs ≠ [])
    (hdots : ∀ s ∈ segs, ¬ s = "." ∧ ¬ s = "..")
    (hok : Manifest.AddUserProgram fuel fs m imgpath = .ok m') :
    m'.program = some ("/" ++ joinStr '/' segs) ∧
    lookupSegs m'.rootChildren segs = some (.str imgpath) := by
  have hmem : ∀ s ∈ segs, s ∈ goSplit imgpath '/' := by
    intro s hs
    rw [hsegs] at hs
    have hs' := (List.mem_filter.mp hs).1
    by_cases hcase : (goSplit imgpath '/').head? = some "."
    · rw [if_pos hcase] at hs'
      exact List.mem_of_mem_tail hs'
    · rw [if_neg hcase] at hs'
      exact hs'
  have hnosep : ∀ s ∈ segs, '/' ∉ s.data := fun s hs =>
    goSplit_no_sep s (hmem s hs)
  have hnorm : ∀ s ∈ segs, ¬ s = "" ∧ ¬ s = "." ∧ ¬ s = ".." := by
    intro s hs
    refine ⟨?_, (hdots s hs).1, (hdots s hs).2⟩
    rw [hsegs] at hs
    have := (List.mem_filter.mp hs).2
    simpa using this
  have hinner : goPathJoin
      (if (goSplit imgpath '/').head? = some "." then
        (goSplit imgpath '/').tail
      else goSplit imgpath '/') = joinStr '/' segs := by
    simp only [goPathJoin, ← hsegs]
    rw [if_neg hne]
    exact pathClean_joinStr_normal hne hnorm hnosep
  have hprog : goPathJoin ["/", goPathJoin
      (if (goSplit imgpath '/').head? = some "." then
        (goSplit imgpath '/').tail
      else goSplit imgpath '/')] = "/" ++ joinStr '/' segs := by
    rw [hinner]
    exact goPathJoin_rooted hne hnorm hnosep
  simp only [Manifest.AddUserProgram, hprog] at hok
  rcases haf : Manifest.AddFile fuel fs m ("/" ++ joinStr '/' segs) imgpath with
    _ | _ | _ | _ | _
  case ok pr =>
    obtain ⟨m1, w⟩ := pr
    rw [haf] at hok
    simp only at hok
    rw [OpRes.ok.injEq] at hok
    subst hok
    constructor
    · rfl
    · show lookupSegs m1.rootChildren segs = some (.str imgpath)
      simp only [Manifest.AddFile] at haf
      rw [fields_rooted hne hnorm hnosep] at haf
      rcases hseg : addFileSegs fuel fs m.targetRoot imgpath m.rootChildren segs with
        _ | _ | _ | _ | _
      case ok pr2 =>
        obtain ⟨t, w'⟩ := pr2
        rw [hseg] at haf
        simp only at haf
        rw [OpRes.ok.injEq] at haf
        have hm1 : m1 = { m with rootChildren := t } :=
          ((Prod.mk.injEq _ _ _ _).mp haf).1.symm
        rw [hm1]
        exact addFileSegs_ok_lookup hseg
      case err e pr2 =>
        obtain ⟨t, w'⟩ := pr2
        rw [hseg] at haf
        simp at haf
      case fatal => rw [hseg] at haf; simp at haf
      case panicked k => rw [hseg] at haf; simp at haf
      case noFuel => rw [hseg] at haf; simp at haf
  case err e pr =>
    rw [haf] at hok
    simp at hok
  case fatal => rw [haf] at hok; simp at hok
  case panicked k => rw [haf] at hok; simp at hok
  case noFuel => rw [haf] at hok; simp at hok

/-- The manifest produced by `AddUserProgram("/bin/ls")` on a fresh
Manifest over `fsW`. -/
def mW7 : Manifest :=
  { rootChildren := [("bin", Node.dir [("ls", Node.str "/bin/ls")])],
    program := some "/bin/ls", arguments := none, notrace := none,
    targetRoot := "" }

theorem mkfs_C7_amended_w :
    mW7.program = some "/bin/ls" ∧
    lookupSegs mW7.rootChildren ["bin", "ls"] = some (Node.str "/bin/ls") := by
  have h := mkfs_C7_amended 1 fsW (NewManifest "") mW7 "/bin/ls"
    ["bin", "ls"] rfl (by decide) (by decide) rfl
  exact ⟨h.1, h.2⟩

/-- Claim C7 counterexample: for the host path `"a/../b"` the code sets
the program field to `"/b"` and inserts the File at virtual path `/b` —
`path.Join` resolves the `".."` — whereas the claimed
"strip a leading `.` and prefix `/`" normalization would give
`"/a/../b"`. -/
theorem mkfs_C7_cx :
    Manifest.AddUserProgram 1 fsW (NewManifest "") "a/../b" =
      .ok { rootChildren := [("b", Node.str "a/../b")], program := some "/b",
            arguments := none, notrace := none, targetRoot := "" } ∧
    some ("/b" : String) ≠ some "/a/../b" :=
  ⟨rfl, by decide⟩
